import Mathlib

/-
Verification of the grid-impacts-explorer flow-graph construction, chart
data transforms and reveal-animation state, shallowly embedded in Lean.
JS numbers are modelled as rationals, JS objects as association lists,
and the visibility-triggered reveal logic as an explicit step function.
-/

/-- One row of the tabular Sankey edge list (the shape of the entries of
the module-level `sankeyData` constant consumed by `buildSankeyGraph`). -/
structure Edge where
  source : String
  target : String
  value : ℚ
  deriving DecidableEq

/-- One step of JS `Set.add` on a set represented as its insertion-order
list of elements: appends the string unless it is already present. -/
def insertName (acc : List String) (x : String) : List String :=
  if x ∈ acc then acc else acc ++ [x]

/-- The `nodeSet` built by `buildSankeyGraph`: every edge adds its source
and then its target to a JS `Set`, which keeps first occurrences in
insertion order. -/
def nodeSet (edges : List Edge) : List String :=
  edges.foldl (fun acc e => insertName (insertName acc e.source) e.target) []

/-- The `NODE_COLORS` record of the Sankey module, as an association list. -/
def NODE_COLORS : List (String × String) :=
  [("grid status quo", "#17becf"),
   ("cables", "#f97316"),
   ("overhead lines", "#2563eb"),
   ("transformers", "#22c55e"),
   ("substations", "#ef4444"),
   ("switchgears", "#a855f7"),
   ("aluminum", "#60a5fa"),
   ("copper", "#f87171"),
   ("iron & steel", "#4ade80"),
   ("plastics", "#c084fc"),
   ("concrete", "#9ca3af"),
   ("SF6", "#fbbf24"),
   ("other materials", "#a3e635"),
   ("electricity", "#64748b"),
   ("heat", "#fcd34d"),
   ("transport", "#22d3ee"),
   ("coal", "#1e293b"),
   ("clinker", "#65a30d"),
   ("aluminum (process emissions)", "#d97706"),
   ("iron & steel (process emissions)", "#dc2626"),
   ("other processes", "#a855f7")]

/-- The node-color expression `NODE_COLORS[name] || "#9ca3af"` (every value
in the map is a non-empty string, so the JS falsy fallback fires exactly
when the name has no entry). -/
def nodeColor (name : String) : String :=
  (NODE_COLORS.lookup name).getD "#9ca3af"

/-- A node of the constructed Sankey graph. -/
structure SankeyNode where
  name : String
  color : String
  deriving DecidableEq

/-- A link of the constructed Sankey graph; `buildSankeyGraph` copies the
edge endpoints into both the source and target slots and the name slots. -/
structure SankeyLink where
  source : String
  target : String
  value : ℚ
  sourceName : String
  targetName : String
  deriving DecidableEq

/-- The link record built from one surviving edge. -/
def mkLink (e : Edge) : SankeyLink :=
  ⟨e.source, e.target, e.value, e.source, e.target⟩

/-- The node list of `buildSankeyGraph`: the node set mapped to records. -/
def buildNodes (edges : List Edge) : List SankeyNode :=
  (nodeSet edges).map fun name => ⟨name, nodeColor name⟩

/-- The link list of `buildSankeyGraph`: edges with value above 0.1. -/
def buildLinks (edges : List Edge) : List SankeyLink :=
  (edges.filter fun d => decide (1 / 10 < d.value)).map mkLink

/-- The `buildSankeyGraph` transform, parameterised by the edge list it
reads (the module-level `sankeyData`). -/
def buildSankeyGraph (edges : List Edge) : List SankeyNode × List SankeyLink :=
  (buildNodes edges, buildLinks edges)

theorem insertName_nodup {acc : List String} {x : String} (h : acc.Nodup) :
    (insertName acc x).Nodup := by
  unfold insertName
  split
  · exact h
  · next hx =>
    rw [List.nodup_append]
    exact ⟨h, List.nodup_singleton x, by
      intro y hy hyx
      exact hx ((List.mem_singleton.mp hyx) ▸ hy)⟩

theorem mem_insertName {acc : List String} {x s : String} :
    s ∈ insertName acc x ↔ s ∈ acc ∨ s = x := by
  unfold insertName
  split
  · next hx =>
    constructor
    · exact Or.inl
    · rintro (h | rfl)
      · exact h
      · exact hx
  · simp

theorem nodeSet_go_nodup (edges : List Edge) (acc : List String) (h : acc.Nodup) :
    (edges.foldl (fun acc e => insertName (insertName acc e.source) e.target) acc).Nodup := by
  induction edges generalizing acc with
  | nil => simpa using h
  | cons e es ih => exact ih _ (insertName_nodup (insertName_nodup h))

theorem mem_nodeSet_go (edges : List Edge) (acc : List String) (s : String) :
    s ∈ edges.foldl (fun acc e => insertName (insertName acc e.source) e.target) acc ↔
      s ∈ acc ∨ ∃ e ∈ edges, e.source = s ∨ e.target = s := by
  induction edges generalizing acc with
  | nil => simp
  | cons e es ih =>
    rw [List.foldl_cons, ih]
    simp only [mem_insertName, List.mem_cons]
    constructor
    · rintro (((h | rfl) | rfl) | ⟨e', he', h⟩)
      · exact Or.inl h
      · exact Or.inr ⟨e, Or.inl rfl, Or.inl rfl⟩
      · exact Or.inr ⟨e, Or.inl rfl, Or.inr rfl⟩
      · exact Or.inr ⟨e', Or.inr he', h⟩
    · rintro (h | ⟨e', (rfl | he'), h⟩)
      · exact Or.inl (Or.inl (Or.inl h))
      · rcases h with rfl | rfl
        · exact Or.inl (Or.inl (Or.inr rfl))
        · exact Or.inl (Or.inr rfl)
      · exact Or.inr ⟨e', he', h⟩

/-- Claim C1: for every tabular edge list, the node list of
`buildSankeyGraph` carries each distinct endpoint name exactly once (the
name list has no duplicates), and a string is a node name exactly when it
appears as the source or target of some edge, independently of the
value-threshold link filter. -/
theorem buildSankeyGraph_nodes_spec (edges : List Edge) :
    (((buildSankeyGraph edges).1.map SankeyNode.name).Nodup) ∧
    ∀ s : String,
      s ∈ (buildSankeyGraph edges).1.map SankeyNode.name ↔
        ∃ e ∈ edges, e.source = s ∨ e.target = s := by
  have hmap : (buildSankeyGraph edges).1.map SankeyNode.name = nodeSet edges := by
    rw [show (buildSankeyGraph edges).1 = buildNodes edges from rfl, buildNodes, List.map_map]
    exact List.map_id (nodeSet edges)
  constructor
  · rw [hmap]
    exact nodeSet_go_nodup edges [] List.nodup_nil
  · intro s
    rw [hmap]
    unfold nodeSet
    rw [mem_nodeSet_go]
    simp

/-- Claim C1 witness: on a concrete edge list, the shared endpoint name
appears among the node names. -/
theorem buildSankeyGraph_nodes_spec_witness :
    "heat" ∈ (buildSankeyGraph
        [⟨"heat", "copper", 3⟩, ⟨"copper", "cables", 1 / 100⟩]).1.map SankeyNode.name :=
  ((buildSankeyGraph_nodes_spec
      [⟨"heat", "copper", 3⟩, ⟨"copper", "cables", 1 / 100⟩]).2 "heat").mpr
    ⟨⟨"heat", "copper", 3⟩, by decide, Or.inl rfl⟩

theorem mkLink_injective : Function.Injective mkLink := by
  intro a b h
  cases a
  cases b
  simp only [mkLink, SankeyLink.mk.injEq] at h
  simp [Edge.mk.injEq, h.1, h.2.1, h.2.2.1]

/-- Claim C2: the link list of `buildSankeyGraph` consists of exactly the
input edges whose value is strictly greater than 0.1: every link comes
from such an edge with source, target and value unchanged, and each
qualifying edge occurrence yields exactly one link (count preserved),
while edges at or below the threshold yield none. -/
theorem buildSankeyGraph_links_spec (edges : List Edge) :
    (∀ l ∈ (buildSankeyGraph edges).2,
      ∃ e ∈ edges, 1 / 10 < e.value ∧
        l.source = e.source ∧ l.target = e.target ∧ l.value = e.value) ∧
    ∀ e : Edge,
      (buildSankeyGraph edges).2.count (mkLink e) =
        if 1 / 10 < e.value then edges.count e else 0 := by
  constructor
  · intro l hl
    simp only [buildSankeyGraph, buildLinks, List.mem_map, List.mem_filter,
      decide_eq_true_eq] at hl
    obtain ⟨e, ⟨he, hv⟩, rfl⟩ := hl
    exact ⟨e, he, hv, rfl, rfl, rfl⟩
  · intro e
    have hlinks : (buildSankeyGraph edges).2 =
        (edges.filter fun d => decide (1 / 10 < d.value)).map mkLink := rfl
    rw [hlinks,
      List.count_map_of_injective
        (edges.filter fun d => decide (1 / 10 < d.value)) mkLink mkLink_injective e]
    split
    · next hv => exact List.count_filter (by simpa using hv)
    · next hv =>
      rw [List.count_eq_zero]
      intro hmem
      exact hv (by simpa using (List.mem_filter.mp hmem).2)

/-- Claim C2 witness: on a concrete edge list, the surviving link keeps its
fields and the below-threshold edge is dropped. -/
theorem buildSankeyGraph_links_spec_witness :
    (buildSankeyGraph
        [⟨"heat", "copper", 3⟩, ⟨"copper", "cables", 1 / 100⟩]).2.count
      (mkLink ⟨"heat", "copper", 3⟩) = 1 ∧
    (buildSankeyGraph
        [⟨"heat", "copper", 3⟩, ⟨"copper", "cables", 1 / 100⟩]).2.count
      (mkLink ⟨"copper", "cables", 1 / 100⟩) = 0 := by
  have h1 := (buildSankeyGraph_links_spec
      [⟨"heat", "copper", 3⟩, ⟨"copper", "cables", 1 / 100⟩]).2 ⟨"heat", "copper", 3⟩
  have h2 := (buildSankeyGraph_links_spec
      [⟨"heat", "copper", 3⟩, ⟨"copper", "cables", 1 / 100⟩]).2 ⟨"copper", "cables", 1 / 100⟩
  rw [if_pos (by norm_num)] at h1
  rw [if_neg (by norm_num)] at h2
  exact ⟨by rw [h1]; decide, h2⟩

/-- The `ELECTRICITY_COLORS` record of the donut-chart module, as an
association list. -/
def ELECTRICITY_COLORS : List (String × String) :=
  [("Coal", "#52525b"),
   ("Gas", "#f97316"),
   ("Wind", "#3b82f6"),
   ("Solar", "#eab308"),
   ("Biomass", "#22c55e"),
   ("Nuclear", "#fbbf24"),
   ("Hydro", "#06b6d4"),
   ("Hydrogen", "#ed7577ff"),
   ("Other", "#9ca3af"),
   ("Grid infrastructure", "#1e40af")]

/-- The generation-series fill expression
`ELECTRICITY_COLORS[name] || "#9ca3af"` used by the donut chart and the
generation stack bar (every map value is a non-empty string, so the JS
falsy fallback fires exactly when the name has no entry). -/
def pieFillColor (name : String) : String :=
  (ELECTRICITY_COLORS.lookup name).getD "#9ca3af"

/-- Claim C4: a name with no entry in the relevant color map is rendered
with the gray fill "#9ca3af", and a name with an entry is rendered with
its mapped color, both for Sankey nodes and for generation series. -/
theorem color_fallback_spec :
    (∀ name : String, NODE_COLORS.lookup name = none → nodeColor name = "#9ca3af") ∧
    (∀ (name c : String), NODE_COLORS.lookup name = some c → nodeColor name = c) ∧
    (∀ name : String, ELECTRICITY_COLORS.lookup name = none → pieFillColor name = "#9ca3af") ∧
    (∀ (name c : String), ELECTRICITY_COLORS.lookup name = some c → pieFillColor name = c) := by
  refine ⟨fun name h => ?_, fun name c h => ?_, fun name h => ?_, fun name c h => ?_⟩ <;>
    simp [nodeColor, pieFillColor, h]

/-- Claim C4 witness: an unmapped name falls back to gray and two mapped
names take their mapped colors. -/
theorem color_fallback_spec_witness :
    nodeColor "unmapped flow" = "#9ca3af" ∧
    nodeColor "cables" = "#f97316" ∧
    pieFillColor "unmapped source" = "#9ca3af" ∧
    pieFillColor "Wind" = "#3b82f6" :=
  ⟨color_fallback_spec.1 "unmapped flow" (by decide),
   color_fallback_spec.2.1 "cables" "#f97316" (by decide),
   color_fallback_spec.2.2.1 "unmapped source" (by decide),
   color_fallback_spec.2.2.2 "Wind" "#3b82f6" (by decide)⟩

/-- One row of the hardcoded scenario-share datasets: a label and the
percentage attributed to it under each scenario column. -/
structure ScenarioShares where
  label : String
  BAU : ℕ
  scen3 : ℕ
  scen2 : ℕ
  scen15 : ℕ
  deriving DecidableEq

/-- The `materials` dataset of `plotDatasets`. -/
def materials : List ScenarioShares :=
  [⟨"Other materials", 4, 4, 4, 3⟩,
   ⟨"Concrete", 4, 4, 3, 3⟩,
   ⟨"Plastics", 6, 5, 5, 5⟩,
   ⟨"SF6", 7, 7, 7, 7⟩,
   ⟨"Copper", 15, 13, 11, 11⟩,
   ⟨"Iron & Steel", 20, 18, 17, 16⟩,
   ⟨"Aluminum", 44, 35, 33, 31⟩]

/-- The `components` dataset of `plotDatasets`. -/
def components : List ScenarioShares :=
  [⟨"Substations", 1, 1, 1, 1⟩,
   ⟨"Transformers", 4, 4, 3, 3⟩,
   ⟨"Switchgears", 8, 8, 8, 8⟩,
   ⟨"Cables", 43, 35, 32, 30⟩,
   ⟨"Overhead lines", 44, 38, 36, 34⟩]

/-- The `processes` dataset of `plotDatasets`. -/
def processes : List ScenarioShares :=
  [⟨"Other processes", 11, 10, 10, 9⟩,
   ⟨"Clinker", 3, 4, 4, 3⟩,
   ⟨"Aluminum (process emissions)", 6, 6, 6, 6⟩,
   ⟨"SF6", 7, 7, 7, 7⟩,
   ⟨"Coal", 8, 7, 6, 6⟩,
   ⟨"Transport", 9, 8, 8, 8⟩,
   ⟨"Heat", 11, 11, 10, 10⟩,
   ⟨"Iron & steel (process emissions)", 11, 10, 10, 9⟩,
   ⟨"Electricity", 34, 23, 19, 18⟩]

/-- The `expansion` dataset of `plotDatasets`. -/
def expansion : List ScenarioShares :=
  [⟨"2023 → 2025", 10, 10, 10, 10⟩,
   ⟨"2025 → 2030", 26, 25, 25, 25⟩,
   ⟨"2030 → 2035", 26, 22, 21, 20⟩,
   ⟨"2035 → 2040", 20, 16, 13, 12⟩,
   ⟨"2040 → 2045", 18, 13, 11, 9⟩]

/-- The `plotDatasets` object: its four datasets in declaration order. -/
def plotDatasets : List (List ScenarioShares) :=
  [materials, components, processes, expansion]

/-- The sum of one scenario column over the rows of a dataset. -/
def columnSum (rows : List ScenarioShares) (col : ScenarioShares → ℕ) : ℕ :=
  (rows.map col).sum

/-- A column total counts as approximately 100 when it lies within a
generous ±5 band around 100. -/
def approxHundred (n : ℕ) : Prop := 95 ≤ n ∧ n ≤ 105

instance (n : ℕ) : Decidable (approxHundred n) := by
  unfold approxHundred
  infer_instance

/-- Claim C3 counterexample: the scen3 column of the materials dataset
sums to 86, which is not approximately 100, so the per-row shares of the
scenario columns do not sum to approximately 100 for every dataset and
column. -/
theorem columnSum_materials_scen3_not_approx :
    columnSum materials (fun r => r.scen3) = 86 ∧
    ¬ approxHundred (columnSum materials (fun r => r.scen3)) := by
  constructor <;> decide

/-- Claim C3 amended: for every dataset of `plotDatasets` the BAU column
sums to exactly 100, while the scenario columns sum to the same reduced
totals in every dataset: 86 for scen3, 80 for scen2 and 76 for scen15
(scenario shares are expressed relative to the BAU total, so only the
BAU column reaches 100). -/
theorem plotDatasets_column_sums :
    (columnSum materials (fun r => r.BAU) = 100 ∧
      columnSum materials (fun r => r.scen3) = 86 ∧
      columnSum materials (fun r => r.scen2) = 80 ∧
      columnSum materials (fun r => r.scen15) = 76) ∧
    (columnSum components (fun r => r.BAU) = 100 ∧
      columnSum components (fun r => r.scen3) = 86 ∧
      columnSum components (fun r => r.scen2) = 80 ∧
      columnSum components (fun r => r.scen15) = 76) ∧
    (columnSum processes (fun r => r.BAU) = 100 ∧
      columnSum processes (fun r => r.scen3) = 86 ∧
      columnSum processes (fun r => r.scen2) = 80 ∧
      columnSum processes (fun r => r.scen15) = 76) ∧
    (columnSum expansion (fun r => r.BAU) = 100 ∧
      columnSum expansion (fun r => r.scen3) = 86 ∧
      columnSum expansion (fun r => r.scen2) = 80 ∧
      columnSum expansion (fun r => r.scen15) = 76) := by
  decide

/-- The per-layer stagger of the Sankey entrance animation, in
milliseconds. -/
def layerDelayMs : ℕ := 200

/-- A node as returned by the layered layout routine: the layout assigns
`depth` (the horizontal layer index); the code reads it as `depth ?? 0`. -/
structure LaidOutNode where
  name : String
  depth : Option ℕ
  deriving DecidableEq

/-- The reveal delay of a node: `(node.depth ?? 0) * layerDelayMs`. -/
def nodeDelayMs (node : LaidOutNode) : ℕ :=
  node.depth.getD 0 * layerDelayMs

/-- A laid-out link, whose source slot holds the resolved source node. -/
structure LaidOutLink where
  source : LaidOutNode
  target : LaidOutNode
  value : ℚ
  deriving DecidableEq

/-- The reveal delay of a link: `160 + (source.depth ?? 0) * layerDelayMs`. -/
def linkDelayMs (link : LaidOutLink) : ℕ :=
  160 + link.source.depth.getD 0 * layerDelayMs

/-- Claim C7: the staged Sankey reveal runs left to right: a node in a
strictly shallower layer has a strictly smaller reveal delay, and every
link is revealed strictly later than its source node. -/
theorem sankey_reveal_ordering (a b : LaidOutNode) (da db : ℕ)
    (ha : a.depth = some da) (hb : b.depth = some db) (hlt : da < db) :
    nodeDelayMs a < nodeDelayMs b ∧
    ∀ link : LaidOutLink, nodeDelayMs link.source < linkDelayMs link := by
  constructor
  · simp only [nodeDelayMs, ha, hb, Option.getD_some, layerDelayMs]
    omega
  · intro link
    simp only [nodeDelayMs, linkDelayMs]
    omega

/-- Claim C7 witness: a depth-0 node is revealed before a depth-1 node,
and a link out of the depth-0 node is revealed after that node. -/
theorem sankey_reveal_ordering_witness :
    nodeDelayMs ⟨"heat", some 0⟩ < nodeDelayMs ⟨"copper", some 1⟩ ∧
    ∀ link : LaidOutLink, nodeDelayMs link.source < linkDelayMs link :=
  sankey_reveal_ordering ⟨"heat", some 0⟩ ⟨"copper", some 1⟩ 0 1 rfl rfl (by decide)

/-- The component-local reveal state shared by the visibility-triggered
charts: `inView` mirrors the `useInView(ref, ... once: true ...)` value and
`animated` mirrors the reveal flag (`hasAnimated` in SankeyVisualization
and ElectricityDonutChartComponent, `ready` in MaterialContributionChart). -/
structure RevealState where
  inView : Bool
  animated : Bool
  deriving DecidableEq

/-- The initial reveal state: both `useInView` and `useState(false)` start
out false. -/
def initialRevealState : RevealState := ⟨false, false⟩

/-- The events that can touch the reveal state: the element scrolling into
view (with `once: true` the in-view flag only ever becomes true), and a run
of the reveal effect. -/
inductive RevealEvent where
  | enterView
  | runEffect
  deriving DecidableEq

/-- One step of the reveal logic: `enterView` latches the in-view flag, and
`runEffect` runs the effect body shared verbatim by the three components:
`if (isInView && !flag) setFlag(true)`. No branch ever writes false. -/
def revealStep (s : RevealState) : RevealEvent → RevealState
  | RevealEvent.enterView => { s with inView := true }
  | RevealEvent.runEffect =>
      if s.inView && !s.animated then { s with animated := true } else s

/-- A run of the reveal state machine over a sequence of events. -/
def runReveal (s : RevealState) (events : List RevealEvent) : RevealState :=
  events.foldl revealStep s

/-- The donut chart data swap: zeroed placeholder values until the reveal
flag is set, then the real ordered values. -/
def donutChartValues (animated : Bool) (ordered : List ℚ) : List ℚ :=
  if animated then ordered else ordered.map fun _ => 0

/-- Claim C5: the reveal flag of every visibility-triggered chart is
monotone: it starts false, becomes true once the element has scrolled into
view and the effect has run, no reachable step resets it, so along any
event sequence a revealed chart stays revealed and its chart data never
reverts to the zeroed placeholder values. -/
theorem reveal_flag_monotone (s : RevealState) (events : List RevealEvent)
    (h : s.animated = true) :
    initialRevealState.animated = false ∧
    (∀ e : RevealEvent, (revealStep s e).animated = true) ∧
    (runReveal s events).animated = true ∧
    (runReveal (runReveal initialRevealState
        [RevealEvent.enterView, RevealEvent.runEffect]) events).animated = true ∧
    ∀ ordered : List ℚ,
      donutChartValues (runReveal s events).animated ordered = ordered := by
  have hstep : ∀ (t : RevealState) (e : RevealEvent),
      t.animated = true → (revealStep t e).animated = true := by
    intro t e ht
    cases e with
    | enterView => simpa [revealStep] using ht
    | runEffect =>
      show (if t.inView && !t.animated then { t with animated := true } else t).animated = true
      split
      · rfl
      · exact ht
  have hrun : ∀ (evs : List RevealEvent) (t : RevealState),
      t.animated = true → (runReveal t evs).animated = true := by
    intro evs
    induction evs with
    | nil => intro t ht; simpa [runReveal] using ht
    | cons e es ih =>
      intro t ht
      exact ih (revealStep t e) (hstep t e ht)
  refine ⟨rfl, fun e => hstep s e h, hrun events s h, ?_, ?_⟩
  · exact hrun events _ rfl
  · intro ordered
    simp [donutChartValues, hrun events s h]

/-- Claim C5 witness: a revealed chart state stays revealed across a
concrete later event sequence. -/
theorem reveal_flag_monotone_witness :
    (runReveal ⟨true, true⟩ [RevealEvent.runEffect, RevealEvent.enterView]).animated = true :=
  (reveal_flag_monotone ⟨true, true⟩ [RevealEvent.runEffect, RevealEvent.enterView] rfl).2.2.1

/-- An animation instance as returned by `animate`: whether it is still
running, and the value it last drove. -/
structure AnimInstance where
  running : Bool
  value : ℚ
  deriving DecidableEq

/-- Modelled from the spec: the `framer-motion` `animate` controls are not
part of this repository; per the spec the "animation instance is disposed
on component teardown", so `stop` marks the instance as no longer
running. -/
def AnimInstance.stop (a : AnimInstance) : AnimInstance :=
  { a with running := false }

/-- Modelled from the spec: an `onUpdate` tick of the `framer-motion`
animation drives a new value only while the instance is running; a
disposed instance performs no further updates. -/
def AnimInstance.update (a : AnimInstance) (v : ℚ) : AnimInstance :=
  if a.running then { a with value := v } else a

/-- The CountUp effect body: it starts an animation instance exactly when
`start` holds and the target differs from the starting value, and in that
case hands back a cleanup that stops the instance. -/
def countUpEffect (start : Bool) (target fromValue : ℚ) : Option AnimInstance :=
  if start = true ∧ target ≠ fromValue then some ⟨true, fromValue⟩ else none

/-- Teardown of the CountUp effect: when an animation instance was started
the registered cleanup runs `controls.stop()` on it; otherwise there is
nothing to clean up. -/
def countUpCleanup : Option AnimInstance → Option AnimInstance
  | some a => some a.stop
  | none => none

/-- Claim C6: whenever the CountUp animation effect is torn down, the
cleanup stops the animation instance it started, and the stopped instance
never performs another update: every later update tick leaves it
unchanged. -/
theorem countUp_cleanup_stops (start : Bool) (target fromValue : ℚ)
    (a : AnimInstance) (h : countUpEffect start target fromValue = some a) :
    countUpCleanup (countUpEffect start target fromValue) = some a.stop ∧
    a.stop.running = false ∧
    ∀ v : ℚ, a.stop.update v = a.stop := by
  refine ⟨by rw [h]; rfl, rfl, ?_⟩
  intro v
  simp [AnimInstance.stop, AnimInstance.update]

/-- Claim C6 witness: a concrete started animation is stopped by the
cleanup and a subsequent update tick does not change it. -/
theorem countUp_cleanup_stops_witness :
    countUpCleanup (countUpEffect true 1 0) = some (AnimInstance.stop ⟨true, 0⟩) ∧
    (AnimInstance.stop ⟨true, 0⟩).running = false ∧
    ∀ v : ℚ, (AnimInstance.stop ⟨true, 0⟩).update v = AnimInstance.stop ⟨true, 0⟩ :=
  countUp_cleanup_stops true 1 0 ⟨true, 0⟩ (by decide)

theorem lookup_isSome_iff {β : Type} {l : List (String × β)} {k : String} :
    (l.lookup k).isSome = true ↔ k ∈ l.map Prod.fst := by
  induction l with
  | nil => simp [List.lookup]
  | cons p es ih =>
    obtain ⟨k', v'⟩ := p
    by_cases h : k = k'
    · subst h
      simp [List.lookup]
    · simp only [List.lookup, beq_eq_false_iff_ne.mpr h, List.map_cons, List.mem_cons]
      rw [ih]
      simp [h]

theorem lookup_eq_some_iff {β : Type} {l : List (String × β)} {k : String} {v : β}
    (hn : (l.map Prod.fst).Nodup) : l.lookup k = some v ↔ (k, v) ∈ l := by
  induction l with
  | nil => simp [List.lookup]
  | cons p es ih =>
    obtain ⟨k', v'⟩ := p
    simp only [List.map_cons, List.nodup_cons] at hn
    by_cases h : k = k'
    · subst h
      simp only [List.lookup, beq_self_eq_true, List.mem_cons, Prod.mk.injEq,
        Option.some.injEq, eq_self_iff_true, true_and]
      constructor
      · intro hv
        exact Or.inl hv.symm
      · rintro (h | hmem)
        · exact h.symm
        · exact absurd (List.mem_map_of_mem Prod.fst hmem) hn.1
    · simp only [List.lookup, beq_eq_false_iff_ne.mpr h, List.mem_cons, Prod.mk.injEq]
      rw [ih hn.2]
      simp [h]

/-- One value of the donut-chart generation map: the share of the
generation mix and the climate impact attributed to the source. -/
structure GenEntry where
  share : ℚ
  impact : ℚ
  deriving DecidableEq

/-- The data record handed to the donut chart: a year, an optional
scenario label, the total, the grid-infrastructure share, and the
generation map (a JS object, modelled as an association list whose keys
are distinct). -/
structure DonutData where
  year : ℤ
  scenario : Option String
  totalGCO2e : ℚ
  gridShare : ℚ
  generation : List (String × GenEntry)
  deriving DecidableEq

/-- The per-key body of the `prevKeys.every(...)` check of `dataIsEqual`:
the next map must contain the key and agree on share and impact. -/
def generationEntryMatches (prevGen nextGen : List (String × GenEntry)) (key : String) : Bool :=
  match nextGen.lookup key with
  | some nextVal =>
    match prevGen.lookup key with
    | some prevVal =>
        decide (prevVal.share = nextVal.share) && decide (prevVal.impact = nextVal.impact)
    | none => false
  | none => false

/-- The `dataIsEqual` comparison used as the memo equality of the donut
chart: scalar fields first, then key-count, then a per-key value check. -/
def dataIsEqual (prev next : DonutData) : Bool :=
  if prev.year ≠ next.year ∨ prev.scenario ≠ next.scenario ∨
      prev.totalGCO2e ≠ next.totalGCO2e ∨ prev.gridShare ≠ next.gridShare then
    false
  else if (prev.generation.map Prod.fst).length ≠ (next.generation.map Prod.fst).length then
    false
  else
    (prev.generation.map Prod.fst).all (generationEntryMatches prev.generation next.generation)

theorem genEntry_eq_of_fields {a b : GenEntry} (hs : a.share = b.share)
    (hi : a.impact = b.impact) : a = b := by
  cases a
  cases b
  simp_all

/-- Claim C8: on generation maps with distinct keys (JS object semantics),
`dataIsEqual` returns true exactly when the two records agree on year,
scenario, totalGCO2e and gridShare, and their generation maps agree as
maps: every key resolves to the same entry (same keys, same share and
impact), so the memoized chart re-renders exactly when some field actually
changed. -/
theorem dataIsEqual_iff (prev next : DonutData)
    (hp : (prev.generation.map Prod.fst).Nodup)
    (hn : (next.generation.map Prod.fst).Nodup) :
    dataIsEqual prev next = true ↔
      prev.year = next.year ∧ prev.scenario = next.scenario ∧
      prev.totalGCO2e = next.totalGCO2e ∧ prev.gridShare = next.gridShare ∧
      ∀ k : String, prev.generation.lookup k = next.generation.lookup k := by
  unfold dataIsEqual
  constructor
  · intro h
    split at h
    · exact absurd h (by simp)
    · next hfields =>
      push_neg at hfields
      obtain ⟨hy, hs, ht, hg⟩ := hfields
      split at h
      · exact absurd h (by simp)
      · next hlen =>
        push_neg at hlen
        rw [List.all_eq_true] at h
        have hsub : ∀ k ∈ prev.generation.map Prod.fst, k ∈ next.generation.map Prod.fst := by
          intro k hk
          have hmatch := h k hk
          unfold generationEntryMatches at hmatch
          cases hnx : next.generation.lookup k with
          | none => rw [hnx] at hmatch; exact absurd hmatch (by simp)
          | some nv => exact lookup_isSome_iff.mp (by rw [hnx]; rfl)
        have hperm : (prev.generation.map Prod.fst).Perm (next.generation.map Prod.fst) :=
          (hp.subperm hsub).perm_of_length_le (le_of_eq hlen.symm)
        refine ⟨hy, hs, ht, hg, fun k => ?_⟩
        by_cases hk : k ∈ prev.generation.map Prod.fst
        · obtain ⟨pv, hpv⟩ := Option.isSome_iff_exists.mp (lookup_isSome_iff.mpr hk)
          have hmatch := h k hk
          unfold generationEntryMatches at hmatch
          cases hnx : next.generation.lookup k with
          | none => rw [hnx] at hmatch; exact absurd hmatch (by simp)
          | some nv =>
            rw [hnx, hpv] at hmatch
            simp only [Bool.and_eq_true, decide_eq_true_eq] at hmatch
            rw [hpv]
            exact congrArg some (genEntry_eq_of_fields hmatch.1 hmatch.2)
        · have hk' : k ∉ next.generation.map Prod.fst := fun hmem => hk (hperm.mem_iff.mpr hmem)
          have h1 : prev.generation.lookup k = none := by
            cases hx : prev.generation.lookup k with
            | none => rfl
            | some v => exact absurd (lookup_isSome_iff.mp (by rw [hx]; rfl)) hk
          have h2 : next.generation.lookup k = none := by
            cases hx : next.generation.lookup k with
            | none => rfl
            | some v => exact absurd (lookup_isSome_iff.mp (by rw [hx]; rfl)) hk'
          rw [h1, h2]
  · rintro ⟨hy, hs, ht, hg, hlook⟩
    have hmemiff : ∀ k, k ∈ prev.generation.map Prod.fst ↔ k ∈ next.generation.map Prod.fst := by
      intro k
      rw [← lookup_isSome_iff, ← lookup_isSome_iff, hlook k]
    have hperm : (prev.generation.map Prod.fst).Perm (next.generation.map Prod.fst) :=
      (List.perm_ext_iff_of_nodup hp hn).mpr hmemiff
    rw [if_neg (by push_neg; exact ⟨hy, hs, ht, hg⟩),
      if_neg (by push_neg; exact hperm.length_eq), List.all_eq_true]
    intro k hk
    obtain ⟨pv, hpv⟩ := Option.isSome_iff_exists.mp (lookup_isSome_iff.mpr hk)
    unfold generationEntryMatches
    rw [← hlook k, hpv]
    simp

/-- Claim C8 witness: a concrete record compares equal to itself under
`dataIsEqual`. -/
theorem dataIsEqual_iff_witness :
    dataIsEqual
      ⟨2035, some "scen2", 120, 8, [("Wind", ⟨40, 12⟩), ("Solar", ⟨30, 9⟩)]⟩
      ⟨2035, some "scen2", 120, 8, [("Wind", ⟨40, 12⟩), ("Solar", ⟨30, 9⟩)]⟩ = true :=
  (dataIsEqual_iff
      ⟨2035, some "scen2", 120, 8, [("Wind", ⟨40, 12⟩), ("Solar", ⟨30, 9⟩)]⟩
      ⟨2035, some "scen2", 120, 8, [("Wind", ⟨40, 12⟩), ("Solar", ⟨30, 9⟩)]⟩
      (by decide) (by decide)).mpr ⟨rfl, rfl, rfl, rfl, fun k => rfl⟩

/-- The `Number(x.toFixed(1))` rescaling step: round to one decimal. -/
def round1 (q : ℚ) : ℚ := (round (q * 10) : ℤ) / 10

/-- The filtered entry list of `GenerationStackBar`: the order list mapped
into the generation map, keeping the names that exist there with share at
least 2. -/
def stackBarFiltered (generation : List (String × GenEntry)) (order : List String) :
    List (String × GenEntry) :=
  (order.filterMap fun name => (generation.lookup name).map fun v => (name, v)).filter
    fun p => decide (2 ≤ p.2.share)

/-- The filtered total of `GenerationStackBar`: the sum of the kept shares. -/
def stackBarTotal (generation : List (String × GenEntry)) (order : List String) : ℚ :=
  ((stackBarFiltered generation order).map fun p => p.2.share).sum

/-- The per-entry rescaling of `GenerationStackBar`: the entry keeps its
other fields and its share becomes its percentage of the filtered total,
rounded to one decimal (`Number(((v.share / total) * 100).toFixed(1))`). -/
def scaleEntry (total : ℚ) (p : String × GenEntry) : String × GenEntry :=
  (p.1, { p.2 with share := round1 (p.2.share / total * 100) })

/-- The `GenerationStackBar` transform: `none` models the early
`return null` when the filtered total is 0, otherwise each kept share is
rescaled to its percentage of the filtered total, rounded to one decimal. -/
def generationStackBar (generation : List (String × GenEntry)) (order : List String) :
    Option (List (String × GenEntry)) :=
  if stackBarTotal generation order = 0 then none
  else
    some ((stackBarFiltered generation order).map
      (scaleEntry (stackBarTotal generation order)))

theorem round1_close (q : ℚ) : |round1 q - q| ≤ 1 / 20 := by
  have h := abs_sub_round (q * 10)
  rw [abs_sub_comm] at h
  unfold round1
  have heq : (round (q * 10) : ℚ) / 10 - q = ((round (q * 10) : ℚ) - q * 10) / 10 := by
    ring
  rw [heq, abs_div]
  rw [show |(10 : ℚ)| = 10 by norm_num]
  linarith

theorem sum_map_round1_close (l : List ℚ) :
    |(l.map round1).sum - l.sum| ≤ (l.length : ℚ) * (1 / 20) := by
  induction l with
  | nil => simp
  | cons x xs ih =>
    have hx := round1_close x
    have htri : |(round1 x + (xs.map round1).sum) - (x + xs.sum)| ≤
        |round1 x - x| + |(xs.map round1).sum - xs.sum| := by
      have : (round1 x + (xs.map round1).sum) - (x + xs.sum) =
          (round1 x - x) + ((xs.map round1).sum - xs.sum) := by ring
      rw [this]
      exact abs_add _ _
    simp only [List.map_cons, List.sum_cons, List.length_cons]
    push_cast
    calc |(round1 x + (xs.map round1).sum) - (x + xs.sum)|
        ≤ |round1 x - x| + |(xs.map round1).sum - xs.sum| := htri
      _ ≤ 1 / 20 + (xs.length : ℚ) * (1 / 20) := add_le_add hx ih
      _ = ((xs.length : ℚ) + 1) * (1 / 20) := by ring

theorem stackBar_scaled_sum (generation : List (String × GenEntry)) (order : List String)
    (h : stackBarTotal generation order ≠ 0) :
    ((stackBarFiltered generation order).map fun p =>
        p.2.share / stackBarTotal generation order * 100).sum = 100 := by
  have hfun : (fun p : String × GenEntry =>
      p.2.share / stackBarTotal generation order * 100) =
      fun p : String × GenEntry =>
        p.2.share * (100 / stackBarTotal generation order) := by
    funext p
    ring
  rw [hfun, List.sum_map_mul_right]
  rw [show ((stackBarFiltered generation order).map fun p => p.2.share).sum =
      stackBarTotal generation order from rfl]
  field_simp

/-- Claim C9: `GenerationStackBar` keeps only generation sources present in
the map with share at least 2, rescales each kept share to its percentage
of the filtered total rounded to one decimal, renders nothing when the
filtered total is 0, and the rescaled shares sum to 100 up to one-decimal
rounding (within 1/20 per kept entry). -/
theorem generationStackBar_spec (generation : List (String × GenEntry)) (order : List String) :
    (stackBarTotal generation order = 0 → generationStackBar generation order = none) ∧
    ∀ entries, generationStackBar generation order = some entries →
      (∀ p ∈ entries, ∃ v : GenEntry, generation.lookup p.1 = some v ∧ 2 ≤ v.share ∧
        p.2.share = round1 (v.share / stackBarTotal generation order * 100)) ∧
      |((entries.map fun p => p.2.share).sum) - 100| ≤ (entries.length : ℚ) * (1 / 20) := by
  constructor
  · intro h
    unfold generationStackBar
    rw [if_pos h]
  · intro entries hentries
    unfold generationStackBar at hentries
    split at hentries
    · exact absurd hentries (by simp)
    · next htot =>
      rw [Option.some.injEq] at hentries
      subst hentries
      constructor
      · intro p hp
        simp only [List.mem_map] at hp
        obtain ⟨q, hq, rfl⟩ := hp
        have hq' := List.mem_filter.mp hq
        obtain ⟨name, hname, hlk⟩ := List.mem_filterMap.mp hq'.1
        obtain ⟨v, hv, hqv⟩ := Option.map_eq_some'.mp hlk
        subst hqv
        exact ⟨v, hv, by simpa using hq'.2, rfl⟩
      · have hmap : ((stackBarFiltered generation order).map
            (scaleEntry (stackBarTotal generation order))).map (fun p => p.2.share) =
            ((stackBarFiltered generation order).map fun p =>
              p.2.share / stackBarTotal generation order * 100).map round1 := by
          rw [List.map_map, List.map_map]
          rfl
        rw [hmap]
        have hlen : (((stackBarFiltered generation order).map
            (scaleEntry (stackBarTotal generation order))).length : ℚ) =
            (((stackBarFiltered generation order).map fun p =>
              p.2.share / stackBarTotal generation order * 100).length : ℚ) := by
          rw [List.length_map, List.length_map]
        rw [hlen]
        have hbound := sum_map_round1_close
          ((stackBarFiltered generation order).map fun p =>
            p.2.share / stackBarTotal generation order * 100)
        rw [stackBar_scaled_sum generation order htot] at hbound
        exact hbound

/-- Claim C9 witness: with no rows the bar renders nothing, and on a
concrete generation map the kept shares are rescaled (50 and 30 out of a
filtered total of 80 become 62.5 and 37.5, summing to 100 within the
rounding bound). -/
theorem generationStackBar_spec_witness :
    generationStackBar [] [] = none ∧
    |((([("Wind", (⟨125 / 2, 10⟩ : GenEntry)), ("Solar", ⟨75 / 2, 6⟩)]).map
        fun p => p.2.share).sum - 100)| ≤
      (([("Wind", (⟨125 / 2, 10⟩ : GenEntry)), ("Solar", ⟨75 / 2, 6⟩)]).length : ℚ) * (1 / 20) :=
  ⟨(generationStackBar_spec [] []).1 rfl,
   ((generationStackBar_spec
      [("Wind", ⟨50, 10⟩), ("Solar", ⟨30, 6⟩), ("Other", ⟨1, 1⟩)]
      ["Wind", "Solar", "Other"]).2
      [("Wind", ⟨125 / 2, 10⟩), ("Solar", ⟨75 / 2, 6⟩)]
      (by norm_num [generationStackBar, stackBarFiltered, stackBarTotal, scaleEntry,
        round1, List.lookup, List.filterMap, List.filter, round_eq])).2⟩

/-- The `MIN_VALUE` threshold of the donut pie data. -/
def MIN_VALUE : ℚ := 1 / 1000

/-- One slice record of the donut pie data. -/
structure PieEntry where
  name : String
  value : ℚ
  share : ℚ
  fill : String
  deriving DecidableEq

/-- The descending-value order of the comparator `(a, b) => b.value - a.value`. -/
def pieGE (a b : PieEntry) : Prop := b.value ≤ a.value

instance : DecidableRel pieGE :=
  fun a b => inferInstanceAs (Decidable (b.value ≤ a.value))

instance : IsTotal PieEntry pieGE := ⟨fun a b => le_total b.value a.value⟩

instance : IsTrans PieEntry pieGE := ⟨fun _ _ _ h1 h2 => le_trans h2 h1⟩

/-- The pie data of `ElectricityDonutChartComponent`: the generation map
entries above `MIN_VALUE`, then the pushed Grid infrastructure entry built
from `gridShare`. -/
def pieData (data : DonutData) : List PieEntry :=
  ((data.generation.map fun p =>
      PieEntry.mk p.1 p.2.impact p.2.share (pieFillColor p.1)).filter
    fun entry => decide (MIN_VALUE < entry.value)) ++
  [PieEntry.mk "Grid infrastructure" data.gridShare 0
    ((ELECTRICITY_COLORS.lookup "Grid infrastructure").getD "#1e40af")]

/-- The ordered pie data: the non-grid entries sorted by descending value,
followed by the first Grid infrastructure entry found in the pie data
(a sorted permutation models the JS `Array.sort` on the comparator). -/
def orderedPieData (data : DonutData) : List PieEntry :=
  List.insertionSort pieGE
    ((pieData data).filter fun d => decide (d.name ≠ "Grid infrastructure")) ++
  ((pieData data).find? fun d => decide (d.name = "Grid infrastructure")).toList

/-- Claim C10: in the ordered pie data the Grid infrastructure entry is
always the last element; every other entry is a generation source with
impact strictly greater than 0.001 carried over unchanged; and those
generation entries appear in non-increasing order of impact value. -/
theorem orderedPieData_spec (data : DonutData) :
    (∃ g, (orderedPieData data).getLast? = some g ∧ g.name = "Grid infrastructure") ∧
    (∀ e ∈ (orderedPieData data).dropLast,
      e.name ≠ "Grid infrastructure" ∧ MIN_VALUE < e.value ∧
      ∃ p ∈ data.generation, e.name = p.1 ∧ e.value = p.2.impact ∧ e.share = p.2.share) ∧
    List.Pairwise (fun a b => b.value ≤ a.value) ((orderedPieData data).dropLast) := by
  have hfind : ∃ g,
      (pieData data).find? (fun d => decide (d.name = "Grid infrastructure")) = some g := by
    rw [← Option.isSome_iff_exists, List.find?_isSome]
    exact ⟨PieEntry.mk "Grid infrastructure" data.gridShare 0
        ((ELECTRICITY_COLORS.lookup "Grid infrastructure").getD "#1e40af"),
      List.mem_append_right _ (List.mem_singleton.mpr rfl), by simp⟩
  obtain ⟨g, hg⟩ := hfind
  have hgname : g.name = "Grid infrastructure" := by
    simpa using List.find?_some hg
  have hlist : orderedPieData data =
      List.insertionSort pieGE
        ((pieData data).filter fun d => decide (d.name ≠ "Grid infrastructure")) ++ [g] := by
    rw [orderedPieData, hg]
    rfl
  refine ⟨⟨g, by rw [hlist]; exact List.getLast?_concat _, hgname⟩, ?_, ?_⟩
  · intro e he
    rw [hlist, List.dropLast_concat] at he
    have hmem : e ∈ (pieData data).filter fun d => decide (d.name ≠ "Grid infrastructure") :=
      ((List.perm_insertionSort pieGE _).mem_iff).mp he
    obtain ⟨hpie, hname⟩ := List.mem_filter.mp hmem
    have hname' : e.name ≠ "Grid infrastructure" := by simpa using hname
    rcases List.mem_append.mp hpie with hleft | hright
    · obtain ⟨hmapmem, hmin⟩ := List.mem_filter.mp hleft
      obtain ⟨p, hp, rfl⟩ := List.mem_map.mp hmapmem
      exact ⟨hname', by simpa using hmin, p, hp, rfl, rfl, rfl⟩
    · rw [List.mem_singleton] at hright
      subst hright
      exact absurd rfl hname'
  · rw [hlist, List.dropLast_concat]
    exact List.sorted_insertionSort pieGE _

/-- Claim C10 witness: on a concrete record the highest-impact generation
source heads the ordered pie data and keeps its fields. -/
theorem orderedPieData_spec_witness :
    (PieEntry.mk "Coal" 30 20 "#52525b").name ≠ "Grid infrastructure" ∧
    MIN_VALUE < (PieEntry.mk "Coal" 30 20 "#52525b").value ∧
    ∃ p ∈ (DonutData.mk 2030 none 100 5
        [("Wind", ⟨40, 2⟩), ("Coal", ⟨20, 30⟩)]).generation,
      (PieEntry.mk "Coal" 30 20 "#52525b").name = p.1 ∧
      (PieEntry.mk "Coal" 30 20 "#52525b").value = p.2.impact ∧
      (PieEntry.mk "Coal" 30 20 "#52525b").share = p.2.share :=
  (orderedPieData_spec
      (DonutData.mk 2030 none 100 5 [("Wind", ⟨40, 2⟩), ("Coal", ⟨20, 30⟩)])).2.1
    (PieEntry.mk "Coal" 30 20 "#52525b")
    (by norm_num [orderedPieData, pieData, pieFillColor, MIN_VALUE, List.insertionSort,
      List.orderedInsert, pieGE, List.lookup, List.filter, List.find?, List.dropLast])
